import Mathlib

/-!
Verification of the matrix-authentication-service specification against its
code. The definitions below shallowly embed the relevant Rust source:

* `crates/storage-pg/src/upstream_oauth2/provider.rs` — the PostgreSQL
  implementation of the upstream OAuth provider repository
  (`PgUpstreamOAuthProviderRepository`): the `ProviderLookup` row shape,
  the `TryFrom<ProviderLookup> for UpstreamOAuthProvider` conversion and
  the repository operations `lookup`, `add`, `upsert`, `delete_by_id`,
  `list`, `count` and `all`. The database is embedded as an explicit state
  (lists of rows) and each operation as a pure function on that state.
* the authorization-grant exchange, refresh-token rotation and JOSE
  sign/verify components, whose code is not part of the provided sources
  (only module declarations and routing wiring are); these are modelled
  from the specification, as marked on each definition.

Machine integers are modelled as `Nat` with explicit `% 2 ^ w` where the
source truncates; fallible operations return `Option` or `Except`.
-/

namespace MAS

/-! ## Basic wire types

Database text columns are modelled as `List Char` (a byte-transparent
string); timestamps (`DateTime<Utc>`) as nanoseconds since the epoch;
`Uuid`/`Ulid` values as natural numbers below `2 ^ 128`. -/

abbrev Str := List Char

abbrev Ulid := Nat

/-- Rust `DateTime<Utc>`: nanoseconds since the Unix epoch. -/
abbrev DateTime := Nat

/-- Milliseconds component of a `DateTime`, as used by ULID generation. -/
def DateTime.toMillis (t : DateTime) : Nat := t / 1000000

/-- Rust `Ulid::from_datetime_with_source`: the generated ULID packs the
48-bit millisecond timestamp in the high bits and 80 random bits (drawn
from the RNG) in the low bits. -/
def ulidFromDatetime (t : DateTime) (rand : Nat) : Ulid :=
  (DateTime.toMillis t % 2 ^ 48) * 2 ^ 80 + rand % 2 ^ 80

/-! ## Scope strings (`oauth2_types::scope`)

A `Scope` is a non-empty collection of scope tokens; a scope token is a
non-empty string over the RFC 6749 charset `%x21 / %x23-5B / %x5D-7E`.
`Display` joins tokens with a single space; `FromStr` splits on spaces
and fails on any invalid token. -/

def validScopeChar (c : Char) : Bool :=
  c.toNat == 0x21 || (0x23 ≤ c.toNat && c.toNat ≤ 0x5B) ||
    (0x5D ≤ c.toNat && c.toNat ≤ 0x7E)

def validScopeToken (t : Str) : Bool :=
  !t.isEmpty && t.all validScopeChar

structure Scope where
  tokens : List Str
  deriving DecidableEq, Repr

def Scope.wf (s : Scope) : Prop :=
  s.tokens ≠ [] ∧ s.tokens.all validScopeToken = true

instance (s : Scope) : Decidable s.wf := by
  unfold Scope.wf; infer_instance

/-- Rust `Display for Scope`: tokens joined by a single space. -/
def Scope.toStr (s : Scope) : Str :=
  match s.tokens with
  | [] => []
  | t :: ts => go t ts
where
  go (t : Str) : List Str → Str
  | [] => t
  | u :: us => t ++ ' ' :: go u us

/-- Splitting a character list on spaces (the shape of `str::split(' ')`):
always returns at least one (possibly empty) token. -/
def splitSp : Str → List Str
  | [] => [[]]
  | c :: rest =>
    if c = ' ' then [] :: splitSp rest
    else
      match splitSp rest with
      | [] => [[c]]
      | t :: ts => (c :: t) :: ts

/-- Rust `FromStr for Scope`: split on spaces, fail if any token is invalid
(in particular an empty token, so the empty string fails too). -/
def Scope.parse (l : Str) : Option Scope :=
  let parts := splitSp l
  if parts.all validScopeToken then some ⟨parts⟩ else none

/-! ## Enumerations from `mas_iana` -/

/-- Rust `mas_iana::oauth::OAuthClientAuthenticationMethod` (the variants the
provider repository round-trips through text columns). -/
inductive OAuthClientAuthenticationMethod where
  | none
  | clientSecretBasic
  | clientSecretPost
  | clientSecretJwt
  | privateKeyJwt
  deriving DecidableEq, Repr

def OAuthClientAuthenticationMethod.toStr :
    OAuthClientAuthenticationMethod → String
  | .none => "none"
  | .clientSecretBasic => "client_secret_basic"
  | .clientSecretPost => "client_secret_post"
  | .clientSecretJwt => "client_secret_jwt"
  | .privateKeyJwt => "private_key_jwt"

def OAuthClientAuthenticationMethod.parse (s : String) :
    Option OAuthClientAuthenticationMethod :=
  if s = "none" then some .none
  else if s = "client_secret_basic" then some .clientSecretBasic
  else if s = "client_secret_post" then some .clientSecretPost
  else if s = "client_secret_jwt" then some .clientSecretJwt
  else if s = "private_key_jwt" then some .privateKeyJwt
  else Option.none

/-- Rust `mas_iana::jose::JsonWebSignatureAlg` (representative variants). -/
inductive JsonWebSignatureAlg where
  | hs256
  | rs256
  | es256
  deriving DecidableEq, Repr

def JsonWebSignatureAlg.toStr : JsonWebSignatureAlg → String
  | .hs256 => "HS256"
  | .rs256 => "RS256"
  | .es256 => "ES256"

def JsonWebSignatureAlg.parse (s : String) : Option JsonWebSignatureAlg :=
  if s = "HS256" then some .hs256
  else if s = "RS256" then some .rs256
  else if s = "ES256" then some .es256
  else none

/-- Rust `mas_data_model::UpstreamOAuthProviderClaimsImports`: stored as a
typed JSON column, serialized and deserialized transparently by sqlx;
its internal structure is irrelevant to the repository code, so it is
kept opaque. -/
structure UpstreamOAuthProviderClaimsImports where
  raw : Nat
  deriving DecidableEq, Repr

/-! ## Errors (`mas_storage_pg::{DatabaseError, DatabaseInconsistencyError}`) -/

/-- Rust `DatabaseInconsistencyError::on(table).column(col).row(id)`. -/
structure DatabaseInconsistencyError where
  table : String
  column : String
  row : Ulid
  deriving DecidableEq, Repr

inductive DatabaseError where
  /-- a row failed to convert to its data-model type -/
  | inconsistency (e : DatabaseInconsistencyError)
  /-- Rust `DatabaseError::ensure_affected_rows` mismatch -/
  | rowsAffected (expected got : Nat)
  /-- unique-constraint violation reported by the database -/
  | conflict
  /-- Rust `DatabaseError::to_invalid_operation` -/
  | invalidOperation
  deriving DecidableEq, Repr

/-! ## The `upstream_oauth_providers` table and row conversion -/

/-- The `ProviderLookup` row struct: the raw shape of one row of
`upstream_oauth_providers` as selected by `lookup`, `list` and `all`. -/
structure ProviderLookup where
  upstream_oauth_provider_id : Ulid
  issuer : String
  scope : Str
  client_id : String
  encrypted_client_secret : Option String
  token_endpoint_signing_alg : Option String
  token_endpoint_auth_method : String
  created_at : DateTime
  claims_imports : UpstreamOAuthProviderClaimsImports
  deriving DecidableEq, Repr

/-- Rust `mas_data_model::UpstreamOAuthProvider`. -/
structure UpstreamOAuthProvider where
  id : Ulid
  issuer : String
  scope : Scope
  client_id : String
  encrypted_client_secret : Option String
  token_endpoint_signing_alg : Option JsonWebSignatureAlg
  token_endpoint_auth_method : OAuthClientAuthenticationMethod
  created_at : DateTime
  claims_imports : UpstreamOAuthProviderClaimsImports
  deriving DecidableEq, Repr

/-- Rust `TryFrom<ProviderLookup> for UpstreamOAuthProvider`: parse the scope,
auth method and (optional) signing algorithm; any parse failure becomes a
`DatabaseInconsistencyError` naming the table, column and row. -/
def UpstreamOAuthProvider.tryFrom (value : ProviderLookup) :
    Except DatabaseInconsistencyError UpstreamOAuthProvider :=
  let id := value.upstream_oauth_provider_id
  match Scope.parse value.scope with
  | Option.none => .error ⟨"upstream_oauth_providers", "scope", id⟩
  | some scope =>
    match OAuthClientAuthenticationMethod.parse
        value.token_endpoint_auth_method with
    | Option.none =>
      .error ⟨"upstream_oauth_providers", "token_endpoint_auth_method", id⟩
    | some token_endpoint_auth_method =>
      match value.token_endpoint_signing_alg with
      | Option.none =>
        .ok
          { id := id
            issuer := value.issuer
            scope := scope
            client_id := value.client_id
            encrypted_client_secret := value.encrypted_client_secret
            token_endpoint_auth_method := token_endpoint_auth_method
            token_endpoint_signing_alg := Option.none
            created_at := value.created_at
            claims_imports := value.claims_imports }
      | some x =>
        match JsonWebSignatureAlg.parse x with
        | Option.none =>
          .error
            ⟨"upstream_oauth_providers", "token_endpoint_signing_alg", id⟩
        | some alg =>
          .ok
            { id := id
              issuer := value.issuer
              scope := scope
              client_id := value.client_id
              encrypted_client_secret := value.encrypted_client_secret
              token_endpoint_auth_method := token_endpoint_auth_method
              token_endpoint_signing_alg := some alg
              created_at := value.created_at
              claims_imports := value.claims_imports }

/-- A row of `upstream_oauth_authorization_sessions` (only the foreign
key to the provider matters to `delete_by_id`). -/
structure AuthorizationSessionRow where
  upstream_oauth_authorization_session_id : Ulid
  upstream_oauth_provider_id : Ulid
  deriving DecidableEq, Repr

/-- A row of `upstream_oauth_links` (only the foreign key to the
provider matters to `delete_by_id`). -/
structure LinkRow where
  upstream_oauth_link_id : Ulid
  upstream_oauth_provider_id : Ulid
  deriving DecidableEq, Repr

/-- The database state visible to the provider repository. -/
structure Db where
  providers : List ProviderLookup
  sessions : List AuthorizationSessionRow
  links : List LinkRow
  deriving DecidableEq, Repr

/-! ## Pagination (`mas_storage::Pagination` / `Page`)

Keyset pagination over the ULID primary key: `generate_pagination`
emits `WHERE id > after AND id < before ORDER BY id LIMIT count + 1`
(descending when paging backward), and `Pagination::process` truncates
the extra row into the has-more flag. -/

structure Pagination where
  after : Option Ulid
  before : Option Ulid
  count : Nat
  backward : Bool
  deriving DecidableEq, Repr

structure Page (α : Type) where
  has_next_page : Bool
  has_previous_page : Bool
  edges : List α
  deriving DecidableEq, Repr

/-- Collecting an iterator of `Result`s into a `Result` of a `Vec`:
the first error aborts the collection. -/
def collectExcept (f : α → Except ε β) : List α → Except ε (List β)
  | [] => .ok []
  | x :: xs =>
    match f x with
    | .error e => .error e
    | .ok y =>
      match collectExcept f xs with
      | .error e => .error e
      | .ok ys => .ok (y :: ys)

def Page.tryMap (p : Page α) (f : α → Except ε β) : Except ε (Page β) :=
  match collectExcept f p.edges with
  | .error e => .error e
  | .ok edges => .ok ⟨p.has_next_page, p.has_previous_page, edges⟩

/-- Insertion into a list of provider rows sorted by primary key. -/
def insertById (r : ProviderLookup) : List ProviderLookup → List ProviderLookup
  | [] => [r]
  | x :: xs =>
    if r.upstream_oauth_provider_id ≤ x.upstream_oauth_provider_id then
      r :: x :: xs
    else x :: insertById r xs

/-- Query clause `ORDER BY upstream_oauth_provider_id ASC`. -/
def sortById : List ProviderLookup → List ProviderLookup
  | [] => []
  | x :: xs => insertById x (sortById xs)

/-- The row set returned by the query `generate_pagination` builds:
keyset bounds, order by id (reversed when paging backward), limit
`count + 1`. -/
def paginationFetch (p : Pagination) (rows : List ProviderLookup) :
    List ProviderLookup :=
  let bounded := rows.filter fun r =>
    (match p.after with
     | some a => decide (a < r.upstream_oauth_provider_id)
     | none => true) &&
    (match p.before with
     | some b => decide (r.upstream_oauth_provider_id < b)
     | none => true)
  let ordered :=
    if p.backward then (sortById bounded).reverse else sortById bounded
  ordered.take (p.count + 1)

/-- Rust `Pagination::process`: the extra `count + 1`-th row only signals that
more rows exist in the paging direction. -/
def Pagination.process (p : Pagination) (edges : List α) : Page α :=
  let is_full := decide (p.count < edges.length)
  if p.backward then
    ⟨false, is_full, (edges.take p.count).reverse⟩
  else
    ⟨is_full, false, edges.take p.count⟩

/-! ## The repository operations

Each operation of `PgUpstreamOAuthProviderRepository` becomes a pure
function; operations that write return the updated `Db` next to the
`Result`. -/

/-- Rust `mas_storage::upstream_oauth2::UpstreamOAuthProviderFilter`: the
filter currently has no fields (see the `XXX` comments in `list` and
`count`). -/
structure UpstreamOAuthProviderFilter where
  deriving DecidableEq, Repr

namespace PgUpstreamOAuthProviderRepository

/-- Operation `lookup`: `SELECT ... WHERE upstream_oauth_provider_id = $1`
(`fetch_optional`), then `TryFrom` on the row if one was found. -/
def lookup (db : Db) (id : Ulid) :
    Except DatabaseError (Option UpstreamOAuthProvider) :=
  match db.providers.find?
      (fun r => r.upstream_oauth_provider_id == id) with
  | Option.none => .ok Option.none
  | some row =>
    match UpstreamOAuthProvider.tryFrom row with
    | .ok p => .ok (some p)
    | .error e => .error (.inconsistency e)

/-- Operation `add`: reads the clock, mints a ULID from that timestamp and the RNG,
inserts the row with the stringified scope / auth method / algorithm, and
returns the provider built from the arguments. A primary-key conflict is
a database error. -/
def add (db : Db) (rand : Nat) (now : DateTime) (issuer : String)
    (scope : Scope)
    (token_endpoint_auth_method : OAuthClientAuthenticationMethod)
    (token_endpoint_signing_alg : Option JsonWebSignatureAlg)
    (client_id : String) (encrypted_client_secret : Option String)
    (claims_imports : UpstreamOAuthProviderClaimsImports) :
    Db × Except DatabaseError UpstreamOAuthProvider :=
  let created_at := now
  let id := ulidFromDatetime created_at rand
  if db.providers.any (fun r => r.upstream_oauth_provider_id == id) then
    (db, .error .conflict)
  else
    let row : ProviderLookup :=
      { upstream_oauth_provider_id := id
        issuer := issuer
        scope := scope.toStr
        client_id := client_id
        encrypted_client_secret := encrypted_client_secret
        token_endpoint_signing_alg :=
          token_endpoint_signing_alg.map JsonWebSignatureAlg.toStr
        token_endpoint_auth_method := token_endpoint_auth_method.toStr
        created_at := created_at
        claims_imports := claims_imports }
    ({ db with providers := db.providers ++ [row] },
     .ok
       { id := id
         issuer := issuer
         scope := scope
         client_id := client_id
         encrypted_client_secret := encrypted_client_secret
         token_endpoint_signing_alg := token_endpoint_signing_alg
         token_endpoint_auth_method := token_endpoint_auth_method
         created_at := created_at
         claims_imports := claims_imports })

/-- Operation `upsert`: `INSERT ... ON CONFLICT (upstream_oauth_provider_id) DO
UPDATE SET ...` — the update list covers every column except
`created_at` — `RETURNING created_at`; the returned provider carries the
timestamp the query returned. -/
def upsert (db : Db) (now : DateTime) (id : Ulid) (issuer : String)
    (scope : Scope)
    (token_endpoint_auth_method : OAuthClientAuthenticationMethod)
    (token_endpoint_signing_alg : Option JsonWebSignatureAlg)
    (client_id : String) (encrypted_client_secret : Option String)
    (claims_imports : UpstreamOAuthProviderClaimsImports) :
    Db × Except DatabaseError UpstreamOAuthProvider :=
  let row (created : DateTime) : ProviderLookup :=
    { upstream_oauth_provider_id := id
      issuer := issuer
      scope := scope.toStr
      client_id := client_id
      encrypted_client_secret := encrypted_client_secret
      token_endpoint_signing_alg :=
        token_endpoint_signing_alg.map JsonWebSignatureAlg.toStr
      token_endpoint_auth_method := token_endpoint_auth_method.toStr
      created_at := created
      claims_imports := claims_imports }
  let provider (created : DateTime) : UpstreamOAuthProvider :=
    { id := id
      issuer := issuer
      scope := scope
      client_id := client_id
      encrypted_client_secret := encrypted_client_secret
      token_endpoint_signing_alg := token_endpoint_signing_alg
      token_endpoint_auth_method := token_endpoint_auth_method
      created_at := created
      claims_imports := claims_imports }
  match db.providers.find?
      (fun r => r.upstream_oauth_provider_id == id) with
  | some old =>
    let stored := row old.created_at
    ({ db with
        providers := db.providers.map fun r =>
          if r.upstream_oauth_provider_id == id then stored else r },
     .ok (provider old.created_at))
  | Option.none =>
    ({ db with providers := db.providers ++ [row now] },
     .ok (provider now))

/-- Operation `delete_by_id`: delete the authorization sessions referencing the
provider, then the links, then the provider row; `ensure_affected_rows`
demands that the final delete removed exactly one row. -/
def delete_by_id (db : Db) (id : Ulid) : Db × Except DatabaseError Unit :=
  let db1 :=
    { db with
        sessions := db.sessions.filter
          (fun s => !(s.upstream_oauth_provider_id == id)) }
  let db2 :=
    { db1 with
        links := db1.links.filter
          (fun l => !(l.upstream_oauth_provider_id == id)) }
  let affected :=
    (db2.providers.filter
      (fun r => r.upstream_oauth_provider_id == id)).length
  let db3 :=
    { db2 with
        providers := db2.providers.filter
          (fun r => !(r.upstream_oauth_provider_id == id)) }
  (db3,
   if affected == 1 then .ok () else .error (.rowsAffected 1 affected))

/-- Operation `list`: the filter parameter is ignored (`XXX: the filter is
currently ignored, as it does not have any fields`); fetch the paginated
rows, process them into a page and `try_map` the row conversion over it. -/
def list (db : Db) (_filter : UpstreamOAuthProviderFilter)
    (pagination : Pagination) :
    Except DatabaseError (Page UpstreamOAuthProvider) :=
  let edges := paginationFetch pagination db.providers
  (pagination.process edges).tryMap fun r =>
    (UpstreamOAuthProvider.tryFrom r).mapError DatabaseError.inconsistency

/-- Operation `count`: the filter parameter is ignored; `SELECT COUNT(id)` over the
whole table (the `i64 → usize` conversion cannot fail on a count). -/
def count (db : Db) (_filter : UpstreamOAuthProviderFilter) :
    Except DatabaseError Nat :=
  .ok db.providers.length

/-- Operation `all`: fetch every row and convert each with `TryFrom`, collecting
into a `Result<Vec<_>>` so that the first failing row aborts the whole
call. -/
def all (db : Db) : Except DatabaseError (List UpstreamOAuthProvider) :=
  collectExcept
    (fun r =>
      (UpstreamOAuthProvider.tryFrom r).mapError DatabaseError.inconsistency)
    db.providers

end PgUpstreamOAuthProviderRepository

/-! ## Authorization-grant exchange, token rotation and JOSE signing

The code of these components is not part of the provided sources (only
the `mod` declarations and endpoint routing are), so they are modelled
from the specification, as marked on each definition. -/

/-- Errors the token endpoint distinguishes. -/
inductive TokenError where
  | invalidGrant
  | invalidClient
  deriving DecidableEq, Repr

inductive GrantStatus where
  | pending
  | fulfilled (session : Nat)
  | exchanged
  | cancelled
  deriving DecidableEq, Repr

structure AuthorizationGrant where
  id : Ulid
  client_id : String
  code : String
  pkce_challenge : Option String
  expires_at : DateTime
  status : GrantStatus
  deriving DecidableEq, Repr

structure OAuth2Client where
  client_id : String
  client_secret : String
  deriving DecidableEq, Repr

structure GrantStore where
  clients : List OAuth2Client
  grants : List AuthorizationGrant
  deriving DecidableEq, Repr

/-- Modelled from the spec: the PKCE `S256` transformation, recomputing
the challenge from a verifier. It is idealized as an injective tag so
that distinct verifiers yield distinct challenges. -/
def pkceS256 (verifier : String) : String :=
  String.append "sha256$" verifier

/-- Modelled from the spec: `exchange(code, client_credentials,
code_verifier)` of the AuthorizationGrantStateMachine, whose source is
not among the provided files. Locates the grant by code (`InvalidGrant`
if not found, expired, or not Fulfilled), verifies the client
credentials against the owning client (`InvalidClient` on mismatch),
verifies PKCE by recomputing the challenge from the verifier
(`InvalidGrant` on mismatch or missing verifier when required), and on
success atomically marks the grant Exchanged, delegating token minting
to the issuer (represented by the returned grant id). -/
def exchange (st : GrantStore) (now : DateTime) (code : String)
    (client_id client_secret : String) (code_verifier : Option String) :
    GrantStore × Except TokenError Ulid :=
  match st.grants.find? (fun g => g.code == code) with
  | Option.none => (st, .error .invalidGrant)
  | some g =>
    if g.expires_at ≤ now then (st, .error .invalidGrant)
    else
      match g.status with
      | .fulfilled _session =>
        if !(g.client_id == client_id &&
            st.clients.any fun c =>
              c.client_id == client_id && c.client_secret == client_secret)
        then (st, .error .invalidClient)
        else
          let ok :=
            ({ st with
                grants := st.grants.map fun x =>
                  if x.id == g.id then { x with status := .exchanged }
                  else x },
             Except.ok g.id)
          match g.pkce_challenge with
          | some challenge =>
            match code_verifier with
            | Option.none => (st, .error .invalidGrant)
            | some v =>
              if pkceS256 v == challenge then ok
              else (st, .error .invalidGrant)
          | Option.none => ok
      | _ => (st, .error .invalidGrant)

/-- A refresh-token family: its lineage identifier, current generation
and revocation flag. Tokens of the family are exactly the pairs
`(family, g)` with `g ≤ currentGen`. -/
structure RefreshFamily where
  id : Nat
  currentGen : Nat
  revoked : Bool
  deriving DecidableEq, Repr

structure TokenStore where
  families : List RefreshFamily
  deriving DecidableEq, Repr

/-- Modelled from the spec: `refresh(refresh_token)` of the TokenIssuer,
whose source is not among the provided files. Looks the token up by
family and generation (`InvalidGrant` if not found or revoked); if the
presented generation equals the family's current one, rotates to
generation + 1; if it is older than current, revokes the entire family
and fails with `InvalidGrant`. -/
def refresh (st : TokenStore) (family gen : Nat) :
    TokenStore × Except TokenError (Nat × Nat) :=
  match st.families.find? (fun f => f.id == family) with
  | Option.none => (st, .error .invalidGrant)
  | some f =>
    if f.revoked then (st, .error .invalidGrant)
    else if gen == f.currentGen then
      ({ st with
          families := st.families.map fun x =>
            if x.id == family then { x with currentGen := f.currentGen + 1 }
            else x },
       .ok (family, f.currentGen + 1))
    else if gen < f.currentGen then
      ({ st with
          families := st.families.map fun x =>
            if x.id == family then { x with revoked := true } else x },
       .error .invalidGrant)
    else (st, .error .invalidGrant)

/-- Byte strings of the JOSE layer. -/
abbrev Bytes := List Nat

/-- Modelled from the spec: the signature computation of the JoseEngine,
idealized as a collision-free keyed function (distinct messages under
the same key have distinct signatures). -/
def macSign (key : Nat) (msg : Bytes) : Bytes :=
  key :: msg

/-- A compact signed token: payload segment and signature segment. -/
structure SignedToken where
  payload : Bytes
  signature : Bytes
  deriving DecidableEq, Repr

/-- Modelled from the spec: `sign(claims)` with the active key — the
serialized claims become the payload segment, signed by the key. -/
def sign (key : Nat) (claims : Bytes) : SignedToken :=
  ⟨claims, macSign key claims⟩

/-- Modelled from the spec: `verify(token)` — recompute the signature
over the payload, compare, and return the decoded claims on success. -/
def verify (key : Nat) (t : SignedToken) : Option Bytes :=
  if t.signature == macSign key t.payload then some t.payload else none

/-- Changing the byte at position `i` of a segment to `b`. -/
def tamper (l : Bytes) (i : Nat) (b : Nat) : Bytes :=
  l.set i b

/-! ## Helper lemmas -/

/-- Lemma about `find?` after a `map` that does not disturb the predicate: the first
match is the image of the first match. -/
theorem find?_map_pres {α : Type} (p : α → Bool) (f : α → α)
    (hp : ∀ x, p (f x) = p x) :
    ∀ (l : List α) (a : α), l.find? p = some a →
      (l.map f).find? p = some (f a) := by
  intro l
  induction l with
  | nil => intro a h; simp [List.find?] at h
  | cons x xs ih =>
    intro a h
    rw [List.map_cons]
    by_cases hx : p x = true
    · rw [List.find?_cons_of_pos _ hx] at h
      rw [List.find?_cons_of_pos _ (by rw [hp]; exact hx)]
      cases h
      rfl
    · rw [List.find?_cons_of_neg _ hx] at h
      rw [List.find?_cons_of_neg _ (by rw [hp]; exact hx)]
      exact ih a h

/-- A failing element makes the whole collection fail. -/
theorem collectExcept_error {α β ε : Type} (f : α → Except ε β)
    (l : List α) (x : α) (hx : x ∈ l) (e : ε) (he : f x = .error e) :
    ∃ e', collectExcept f l = .error e' := by
  induction l with
  | nil => cases hx
  | cons y ys ih =>
    rcases List.mem_cons.mp hx with rfl | hmem
    · exact ⟨e, by simp [collectExcept, he]⟩
    · cases hfy : f y with
      | error e0 => exact ⟨e0, by simp [collectExcept, hfy]⟩
      | ok b =>
        rcases ih hmem with ⟨e', h'⟩
        exact ⟨e', by simp [collectExcept, hfy, h']⟩

/-- Overwriting one position with a different byte changes the list. -/
theorem set_ne_of_get_ne :
    ∀ (l : Bytes) (i : Nat) (b : Nat) (h : i < l.length),
      b ≠ l.get ⟨i, h⟩ → l.set i b ≠ l := by
  intro l
  induction l with
  | nil => intro i b h; simp at h
  | cons x xs ih =>
    intro i b h hb
    cases i with
    | zero =>
      simp only [List.set]
      intro heq
      injection heq with h1 _
      exact hb (by simpa using h1)
    | succ i =>
      simp only [List.set]
      intro heq
      injection heq with _ h2
      exact ih i b (by simpa using h) (by simpa using hb) h2

/-- A valid scope token contains no space. -/
theorem no_space_of_valid (t : Str) (h : validScopeToken t = true) :
    ∀ c ∈ t, c ≠ ' ' := by
  intro c hc
  unfold validScopeToken at h
  have hall := (Bool.and_eq_true _ _ |>.mp h).2
  have hv := List.all_eq_true.mp hall c hc
  intro hsp
  subst hsp
  simp [validScopeChar] at hv

/-- Splitting a space-free list yields the singleton. -/
theorem splitSp_no_space (t : Str) (h : ∀ c ∈ t, c ≠ ' ') :
    splitSp t = [t] := by
  induction t with
  | nil => rfl
  | cons c cs ih =>
    have hc : c ≠ ' ' := h c (List.mem_cons_self _ _)
    have ihs := ih fun x hx => h x (List.mem_cons_of_mem _ hx)
    simp only [splitSp, if_neg hc, ihs]

/-- Splitting a space-free prefix followed by a space peels the prefix. -/
theorem splitSp_append (t rest : Str) (h : ∀ c ∈ t, c ≠ ' ') :
    splitSp (t ++ ' ' :: rest) = t :: splitSp rest := by
  induction t with
  | nil => simp [splitSp]
  | cons c cs ih =>
    have hc : c ≠ ' ' := h c (List.mem_cons_self _ _)
    have ihs := ih fun x hx => h x (List.mem_cons_of_mem _ hx)
    simp only [List.cons_append, splitSp, if_neg hc]
    rw [List.append_eq, ihs]

/-- Splitting the space-joined token list recovers the tokens. -/
theorem splitSp_toStr_go (t : Str) (ts : List Str)
    (ht : ∀ c ∈ t, c ≠ ' ') (hts : ∀ u ∈ ts, ∀ c ∈ u, c ≠ ' ') :
    splitSp (Scope.toStr.go t ts) = t :: ts := by
  induction ts generalizing t with
  | nil => exact splitSp_no_space t ht
  | cons u us ih =>
    have hu : ∀ c ∈ u, c ≠ ' ' := hts u (List.mem_cons_self _ _)
    have hus : ∀ v ∈ us, ∀ c ∈ v, c ≠ ' ' := fun v hv =>
      hts v (List.mem_cons_of_mem _ hv)
    simp only [Scope.toStr.go, splitSp_append t _ ht, ih u hu hus]

/-- Round trip of the scope through its text column: parsing the
`Display` form of a well-formed scope recovers it. -/
theorem scope_parse_toStr (s : Scope) (h : s.wf) :
    Scope.parse s.toStr = some s := by
  obtain ⟨hne, hall⟩ := h
  obtain ⟨tokens⟩ := s
  cases tokens with
  | nil => exact absurd rfl hne
  | cons t ts =>
    have hv : ∀ u ∈ t :: ts, validScopeToken u = true := by
      intro u hu
      exact List.all_eq_true.mp hall u hu
    have hsplit : splitSp (Scope.toStr ⟨t :: ts⟩) = t :: ts := by
      have := splitSp_toStr_go t ts
        (no_space_of_valid t (hv t (List.mem_cons_self _ _)))
        (fun u hu => no_space_of_valid u (hv u (List.mem_cons_of_mem _ hu)))
      simpa [Scope.toStr] using this
    simp only [Scope.parse, hsplit]
    rw [if_pos]
    exact List.all_eq_true.mpr hv

/-- Round trip of the auth method through its text column. -/
theorem authMethod_parse_toStr
    (m : OAuthClientAuthenticationMethod) :
    OAuthClientAuthenticationMethod.parse m.toStr = some m := by
  cases m <;> rfl

/-- Round trip of the signing algorithm through its text column. -/
theorem alg_parse_toStr (a : JsonWebSignatureAlg) :
    JsonWebSignatureAlg.parse a.toStr = some a := by
  cases a <;> rfl

/-- Any of the three malformed columns makes the row conversion fail. -/
theorem tryFrom_error_of_bad (row : ProviderLookup)
    (hbad : Scope.parse row.scope = Option.none ∨
      OAuthClientAuthenticationMethod.parse
        row.token_endpoint_auth_method = Option.none ∨
      ∃ s, row.token_endpoint_signing_alg = some s ∧
        JsonWebSignatureAlg.parse s = Option.none) :
    ∃ e, UpstreamOAuthProvider.tryFrom row = .error e := by
  unfold UpstreamOAuthProvider.tryFrom
  rcases hbad with h | h | ⟨s, hs, h⟩
  · rw [h]
    exact ⟨_, rfl⟩
  · cases hscope : Scope.parse row.scope with
    | none => exact ⟨_, rfl⟩
    | some sc => rw [h]; exact ⟨_, rfl⟩
  · cases hscope : Scope.parse row.scope with
    | none => exact ⟨_, rfl⟩
    | some sc =>
      cases hauth : OAuthClientAuthenticationMethod.parse
          row.token_endpoint_auth_method with
      | none => exact ⟨_, rfl⟩
      | some m =>
        refine ⟨⟨"upstream_oauth_providers", "token_endpoint_signing_alg",
          row.upstream_oauth_provider_id⟩, ?_⟩
        rw [hs]
        simp [h]

/-! ## Concrete sample data for witnesses -/

def sampleRow : ProviderLookup :=
  { upstream_oauth_provider_id := 1
    issuer := "https://issuer.example"
    scope := ['o', 'p', 'e', 'n', 'i', 'd']
    client_id := "cid"
    encrypted_client_secret := Option.none
    token_endpoint_signing_alg := some "RS256"
    token_endpoint_auth_method := "client_secret_basic"
    created_at := 0
    claims_imports := ⟨0⟩ }

/-- A stored row whose `token_endpoint_auth_method` column does not
parse. -/
def badRow : ProviderLookup :=
  { sampleRow with
      upstream_oauth_provider_id := 2
      token_endpoint_auth_method := "bogus" }

def sampleScope : Scope := ⟨[['o', 'p', 'e', 'n', 'i', 'd']]⟩

/-! ## The claims -/

/-- C2: the upstream-provider repository's `list` and `count` operations
are independent of their filter argument — for every pagination value
and database state, two calls differing only in the filter return the
same result. -/
theorem list_count_filter_independent
    (db : Db) (f1 f2 : UpstreamOAuthProviderFilter) (p : Pagination) :
    PgUpstreamOAuthProviderRepository.list db f1 p =
      PgUpstreamOAuthProviderRepository.list db f2 p ∧
    PgUpstreamOAuthProviderRepository.count db f1 =
      PgUpstreamOAuthProviderRepository.count db f2 := by
  cases f1
  cases f2
  exact ⟨rfl, rfl⟩

/-- C10: `lookup` of an identifier for which no upstream provider exists
returns `Ok(None)` — absence is an empty optional result, never an
error. -/
theorem lookup_absent_ok_none (db : Db) (id : Ulid)
    (h : ∀ r ∈ db.providers, r.upstream_oauth_provider_id ≠ id) :
    PgUpstreamOAuthProviderRepository.lookup db id = .ok Option.none := by
  have hfind :
      db.providers.find? (fun r => r.upstream_oauth_provider_id == id) =
        Option.none := by
    rw [List.find?_eq_none]
    intro x hx
    simpa using h x hx
  simp [PgUpstreamOAuthProviderRepository.lookup, hfind]

theorem lookup_absent_ok_none_witness :
    (∀ r ∈ (Db.mk [sampleRow] [] []).providers,
       r.upstream_oauth_provider_id ≠ 5) ∧
    PgUpstreamOAuthProviderRepository.lookup (Db.mk [sampleRow] [] []) 5 =
      .ok Option.none :=
  ⟨by decide, lookup_absent_ok_none (Db.mk [sampleRow] [] []) 5 (by decide)⟩

/-- C5: add/lookup round trip — `add` returns a provider whose fields
equal the arguments with `created_at` equal to the clock's current time,
and a subsequent `lookup` of the returned identifier returns `Some` of a
provider equal to it (the stringified scope, auth method and algorithm
parse back to the original values). -/
theorem add_lookup_roundtrip
    (db : Db) (rand : Nat) (now : DateTime) (issuer : String) (scope : Scope)
    (am : OAuthClientAuthenticationMethod) (alg : Option JsonWebSignatureAlg)
    (cid : String) (sec : Option String)
    (imports : UpstreamOAuthProviderClaimsImports)
    (hwf : scope.wf)
    (hfresh : ∀ r ∈ db.providers,
      r.upstream_oauth_provider_id ≠ ulidFromDatetime now rand) :
    ∃ p, (PgUpstreamOAuthProviderRepository.add db rand now issuer scope am
        alg cid sec imports).2 = .ok p ∧
      p.id = ulidFromDatetime now rand ∧ p.issuer = issuer ∧
      p.scope = scope ∧ p.client_id = cid ∧
      p.encrypted_client_secret = sec ∧
      p.token_endpoint_auth_method = am ∧
      p.token_endpoint_signing_alg = alg ∧ p.created_at = now ∧
      p.claims_imports = imports ∧
      PgUpstreamOAuthProviderRepository.lookup
        (PgUpstreamOAuthProviderRepository.add db rand now issuer scope am
          alg cid sec imports).1 p.id = .ok (some p) := by
  have hany : db.providers.any
      (fun r => r.upstream_oauth_provider_id == ulidFromDatetime now rand) =
        false := by
    rw [List.any_eq_false]
    intro r hr
    simpa using hfresh r hr
  refine ⟨{ id := ulidFromDatetime now rand
            issuer := issuer
            scope := scope
            client_id := cid
            encrypted_client_secret := sec
            token_endpoint_signing_alg := alg
            token_endpoint_auth_method := am
            created_at := now
            claims_imports := imports },
    ?_, rfl, rfl, rfl, rfl, rfl, rfl, rfl, rfl, rfl, ?_⟩
  · simp [PgUpstreamOAuthProviderRepository.add, hany]
  · have hdb1 : (PgUpstreamOAuthProviderRepository.add db rand now issuer
        scope am alg cid sec imports).1.providers =
        db.providers ++
          [{ upstream_oauth_provider_id := ulidFromDatetime now rand
             issuer := issuer
             scope := scope.toStr
             client_id := cid
             encrypted_client_secret := sec
             token_endpoint_signing_alg :=
               alg.map JsonWebSignatureAlg.toStr
             token_endpoint_auth_method := am.toStr
             created_at := now
             claims_imports := imports }] := by
      simp [PgUpstreamOAuthProviderRepository.add, hany]
    have hfind : (PgUpstreamOAuthProviderRepository.add db rand now issuer
        scope am alg cid sec imports).1.providers.find?
          (fun r =>
            r.upstream_oauth_provider_id == ulidFromDatetime now rand) =
        some
          { upstream_oauth_provider_id := ulidFromDatetime now rand
            issuer := issuer
            scope := scope.toStr
            client_id := cid
            encrypted_client_secret := sec
            token_endpoint_signing_alg := alg.map JsonWebSignatureAlg.toStr
            token_endpoint_auth_method := am.toStr
            created_at := now
            claims_imports := imports } := by
      rw [hdb1, List.find?_append]
      have h1 : db.providers.find?
          (fun r =>
            r.upstream_oauth_provider_id == ulidFromDatetime now rand) =
          Option.none := by
        rw [List.find?_eq_none]
        intro x hx
        simpa using hfresh x hx
      rw [h1]
      simp [List.find?]
    have htf : UpstreamOAuthProvider.tryFrom
        { upstream_oauth_provider_id := ulidFromDatetime now rand
          issuer := issuer
          scope := scope.toStr
          client_id := cid
          encrypted_client_secret := sec
          token_endpoint_signing_alg := alg.map JsonWebSignatureAlg.toStr
          token_endpoint_auth_method := am.toStr
          created_at := now
          claims_imports := imports } =
        .ok
          { id := ulidFromDatetime now rand
            issuer := issuer
            scope := scope
            client_id := cid
            encrypted_client_secret := sec
            token_endpoint_signing_alg := alg
            token_endpoint_auth_method := am
            created_at := now
            claims_imports := imports } := by
      unfold UpstreamOAuthProvider.tryFrom
      cases alg with
      | none =>
        simp [scope_parse_toStr scope hwf, authMethod_parse_toStr]
      | some a =>
        simp [scope_parse_toStr scope hwf,
          authMethod_parse_toStr,
          alg_parse_toStr]
    simp [PgUpstreamOAuthProviderRepository.lookup, hfind, htf]

theorem add_lookup_roundtrip_witness :
    sampleScope.wf ∧
    (∃ p, (PgUpstreamOAuthProviderRepository.add (Db.mk [] [] []) 0 0
        "https://issuer.example" sampleScope .clientSecretBasic
        (some .rs256) "cid" Option.none ⟨0⟩).2 = .ok p ∧
      p.id = ulidFromDatetime 0 0 ∧ p.issuer = "https://issuer.example" ∧
      p.scope = sampleScope ∧ p.client_id = "cid" ∧
      p.encrypted_client_secret = Option.none ∧
      p.token_endpoint_auth_method = .clientSecretBasic ∧
      p.token_endpoint_signing_alg = some .rs256 ∧ p.created_at = 0 ∧
      p.claims_imports = ⟨0⟩ ∧
      PgUpstreamOAuthProviderRepository.lookup
        (PgUpstreamOAuthProviderRepository.add (Db.mk [] [] []) 0 0
          "https://issuer.example" sampleScope .clientSecretBasic
          (some .rs256) "cid" Option.none ⟨0⟩).1 p.id = .ok (some p)) :=
  ⟨by decide,
   add_lookup_roundtrip (Db.mk [] [] []) 0 0 "https://issuer.example"
     sampleScope .clientSecretBasic (some .rs256) "cid" Option.none ⟨0⟩
     (by decide) (by simp)⟩

/-- A successful `add` mints its identifier from the clock reading and
the RNG draw. -/
theorem add_ok_id (db : Db) (rand : Nat) (now : DateTime) (issuer : String)
    (scope : Scope) (am : OAuthClientAuthenticationMethod)
    (alg : Option JsonWebSignatureAlg) (cid : String) (sec : Option String)
    (imports : UpstreamOAuthProviderClaimsImports)
    (p : UpstreamOAuthProvider)
    (h : (PgUpstreamOAuthProviderRepository.add db rand now issuer scope am
      alg cid sec imports).2 = .ok p) :
    p.id = ulidFromDatetime now rand := by
  unfold PgUpstreamOAuthProviderRepository.add at h
  dsimp only at h
  split at h
  · simp at h
  · cases h
    rfl

/-- C6 (counterexample): identifier minting is not monotone in the raw
clock reading — two `add` calls whose clock readings fall in the same
millisecond (0 ns and 1 ns) return identifiers ordered by the random
component, not by time. -/
theorem ulid_time_counterexample :
    (0 : DateTime) < 1 ∧
    (PgUpstreamOAuthProviderRepository.add (Db.mk [] [] []) 1 0 "i"
        sampleScope .none Option.none "c" Option.none ⟨0⟩).2.map
      (fun p => p.id) = .ok (ulidFromDatetime 0 1) ∧
    (PgUpstreamOAuthProviderRepository.add (Db.mk [] [] []) 0 1 "i"
        sampleScope .none Option.none "c" Option.none ⟨0⟩).2.map
      (fun p => p.id) = .ok (ulidFromDatetime 1 0) ∧
    ¬ ulidFromDatetime 0 1 < ulidFromDatetime 1 0 :=
  ⟨by decide, by rfl, by rfl, by decide⟩

/-- Monotonicity of ULID minting at millisecond granularity. -/
theorem ulid_monotone_in_ms (t1 t2 r1 r2 : Nat)
    (h : DateTime.toMillis t1 < DateTime.toMillis t2)
    (h48 : DateTime.toMillis t2 < 2 ^ 48) :
    ulidFromDatetime t1 r1 < ulidFromDatetime t2 r2 := by
  unfold ulidFromDatetime
  rw [Nat.mod_eq_of_lt (lt_trans h h48), Nat.mod_eq_of_lt h48]
  calc DateTime.toMillis t1 * 2 ^ 80 + r1 % 2 ^ 80
      < DateTime.toMillis t1 * 2 ^ 80 + 2 ^ 80 :=
        Nat.add_lt_add_left (Nat.mod_lt _ (by positivity)) _
    _ = (DateTime.toMillis t1 + 1) * 2 ^ 80 := by ring
    _ ≤ DateTime.toMillis t2 * 2 ^ 80 := Nat.mul_le_mul_right _ h
    _ ≤ DateTime.toMillis t2 * 2 ^ 80 + r2 % 2 ^ 80 := Nat.le_add_right _ _

/-- C3: for every stored provider row whose scope string, token-endpoint
auth method or token-endpoint signing algorithm does not parse, `lookup`
(and likewise `all` and `list`) returns an error identifying the
inconsistency; it never succeeds by silently skipping or truncating the
row. -/
theorem lookup_all_list_surface_inconsistency
    (db : Db) (row : ProviderLookup)
    (hbad : Scope.parse row.scope = Option.none ∨
      OAuthClientAuthenticationMethod.parse
        row.token_endpoint_auth_method = Option.none ∨
      ∃ s, row.token_endpoint_signing_alg = some s ∧
        JsonWebSignatureAlg.parse s = Option.none) :
    (∀ id, db.providers.find?
        (fun r => r.upstream_oauth_provider_id == id) = some row →
      ∃ e, PgUpstreamOAuthProviderRepository.lookup db id = .error e) ∧
    (row ∈ db.providers →
      ∃ e, PgUpstreamOAuthProviderRepository.all db = .error e) ∧
    (∀ f p, row ∈ (Pagination.process p (paginationFetch p db.providers)).edges →
      ∃ e, PgUpstreamOAuthProviderRepository.list db f p = .error e) := by
  obtain ⟨e0, he0⟩ := tryFrom_error_of_bad row hbad
  have hmapped :
      (UpstreamOAuthProvider.tryFrom row).mapError DatabaseError.inconsistency =
        .error (.inconsistency e0) := by
    rw [he0]
    rfl
  refine ⟨?_, ?_, ?_⟩
  · intro id hfind
    exact ⟨.inconsistency e0,
      by simp [PgUpstreamOAuthProviderRepository.lookup, hfind, he0]⟩
  · intro hmem
    obtain ⟨e', he'⟩ := collectExcept_error
      (fun r =>
        (UpstreamOAuthProvider.tryFrom r).mapError DatabaseError.inconsistency)
      db.providers row hmem (.inconsistency e0) hmapped
    exact ⟨e', by simp [PgUpstreamOAuthProviderRepository.all, he']⟩
  · intro f p hmem
    obtain ⟨e', he'⟩ := collectExcept_error
      (fun r =>
        (UpstreamOAuthProvider.tryFrom r).mapError DatabaseError.inconsistency)
      (Pagination.process p (paginationFetch p db.providers)).edges row hmem
      (.inconsistency e0) hmapped
    exact ⟨e',
      by simp [PgUpstreamOAuthProviderRepository.list, Page.tryMap, he']⟩

theorem lookup_all_list_surface_inconsistency_witness :
    (OAuthClientAuthenticationMethod.parse
      badRow.token_endpoint_auth_method = Option.none) ∧
    ((Db.mk [sampleRow, badRow] [] []).providers.find?
      (fun r => r.upstream_oauth_provider_id == 2) = some badRow) ∧
    (∃ e, PgUpstreamOAuthProviderRepository.lookup
      (Db.mk [sampleRow, badRow] [] []) 2 = .error e) ∧
    (∃ e, PgUpstreamOAuthProviderRepository.all
      (Db.mk [sampleRow, badRow] [] []) = .error e) ∧
    (∃ e, PgUpstreamOAuthProviderRepository.list
      (Db.mk [sampleRow, badRow] [] []) ⟨⟩
      (Pagination.mk Option.none Option.none 10 false) = .error e) :=
  ⟨by decide, by decide,
   (lookup_all_list_surface_inconsistency (Db.mk [sampleRow, badRow] [] [])
     badRow (Or.inr (Or.inl (by decide)))).1 2 (by decide),
   (lookup_all_list_surface_inconsistency (Db.mk [sampleRow, badRow] [] [])
     badRow (Or.inr (Or.inl (by decide)))).2.1 (by decide),
   (lookup_all_list_surface_inconsistency (Db.mk [sampleRow, badRow] [] [])
     badRow (Or.inr (Or.inl (by decide)))).2.2 ⟨⟩
     (Pagination.mk Option.none Option.none 10 false) (by decide)⟩

/-- C9: `delete_by_id` removes every authorization session and link
referencing the provider (and only those), removes the provider row, and
returns an error — not success — when no provider with the identifier
exists, since the final delete then affects zero rows instead of exactly
one. -/
theorem delete_by_id_spec (db : Db) (id : Ulid) :
    (∀ s ∈ (PgUpstreamOAuthProviderRepository.delete_by_id db id).1.sessions,
       s.upstream_oauth_provider_id ≠ id) ∧
    (∀ s ∈ db.sessions, s.upstream_oauth_provider_id ≠ id →
       s ∈ (PgUpstreamOAuthProviderRepository.delete_by_id db id).1.sessions) ∧
    (∀ l ∈ (PgUpstreamOAuthProviderRepository.delete_by_id db id).1.links,
       l.upstream_oauth_provider_id ≠ id) ∧
    (∀ l ∈ db.links, l.upstream_oauth_provider_id ≠ id →
       l ∈ (PgUpstreamOAuthProviderRepository.delete_by_id db id).1.links) ∧
    (∀ r ∈ (PgUpstreamOAuthProviderRepository.delete_by_id db id).1.providers,
       r.upstream_oauth_provider_id ≠ id) ∧
    ((∀ r ∈ db.providers, r.upstream_oauth_provider_id ≠ id) →
       ∃ e, (PgUpstreamOAuthProviderRepository.delete_by_id db id).2 =
         .error e) := by
  refine ⟨?_, ?_, ?_, ?_, ?_, ?_⟩
  · intro s hs
    simp [PgUpstreamOAuthProviderRepository.delete_by_id,
      List.mem_filter] at hs
    exact hs.2
  · intro s hs hne
    simp [PgUpstreamOAuthProviderRepository.delete_by_id, List.mem_filter]
    exact ⟨hs, hne⟩
  · intro l hl
    simp [PgUpstreamOAuthProviderRepository.delete_by_id,
      List.mem_filter] at hl
    exact hl.2
  · intro l hl hne
    simp [PgUpstreamOAuthProviderRepository.delete_by_id, List.mem_filter]
    exact ⟨hl, hne⟩
  · intro r hr
    simp [PgUpstreamOAuthProviderRepository.delete_by_id,
      List.mem_filter] at hr
    exact hr.2
  · intro habs
    have hfilter :
        db.providers.filter
          (fun r => r.upstream_oauth_provider_id == id) = [] := by
      rw [List.filter_eq_nil_iff]
      intro r hr
      simpa using habs r hr
    refine ⟨.rowsAffected 1 0, ?_⟩
    simp [PgUpstreamOAuthProviderRepository.delete_by_id, hfilter]

theorem delete_by_id_spec_witness :
    ((Db.mk [sampleRow] [⟨7, 1⟩, ⟨8, 3⟩] [⟨9, 1⟩]).sessions ≠ []) ∧
    (∀ s ∈ (PgUpstreamOAuthProviderRepository.delete_by_id
        (Db.mk [sampleRow] [⟨7, 1⟩, ⟨8, 3⟩] [⟨9, 1⟩]) 1).1.sessions,
       s.upstream_oauth_provider_id ≠ 1) ∧
    (∀ r ∈ (Db.mk [sampleRow] [] []).providers,
       r.upstream_oauth_provider_id ≠ 5) ∧
    (∃ e, (PgUpstreamOAuthProviderRepository.delete_by_id
        (Db.mk [sampleRow] [] []) 5).2 = .error e) :=
  ⟨by decide,
   (delete_by_id_spec (Db.mk [sampleRow] [⟨7, 1⟩, ⟨8, 3⟩] [⟨9, 1⟩]) 1).1,
   by decide,
   (delete_by_id_spec (Db.mk [sampleRow] [] []) 5).2.2.2.2.2 (by decide)⟩

/-- C8: for an existing provider identifier, `upsert` overwrites issuer,
scope, auth method, signing algorithm, client id, client secret and
claims imports, leaves the stored `created_at` unchanged, and the
returned provider carries the originally stored `created_at`, not the
clock reading taken during the call. -/
theorem upsert_preserves_created_at
    (db : Db) (now : DateTime) (id : Ulid) (issuer : String) (scope : Scope)
    (am : OAuthClientAuthenticationMethod) (alg : Option JsonWebSignatureAlg)
    (cid : String) (sec : Option String)
    (imports : UpstreamOAuthProviderClaimsImports) (old : ProviderLookup)
    (h : db.providers.find?
      (fun r => r.upstream_oauth_provider_id == id) = some old) :
    (PgUpstreamOAuthProviderRepository.upsert db now id issuer scope am alg
        cid sec imports).2 =
      .ok
        { id := id
          issuer := issuer
          scope := scope
          client_id := cid
          encrypted_client_secret := sec
          token_endpoint_signing_alg := alg
          token_endpoint_auth_method := am
          created_at := old.created_at
          claims_imports := imports } ∧
    (∀ r ∈ (PgUpstreamOAuthProviderRepository.upsert db now id issuer scope
        am alg cid sec imports).1.providers,
       r.upstream_oauth_provider_id = id →
         r.created_at = old.created_at ∧ r.issuer = issuer ∧
         r.scope = scope.toStr ∧
         r.token_endpoint_auth_method = am.toStr ∧
         r.token_endpoint_signing_alg = alg.map JsonWebSignatureAlg.toStr ∧
         r.client_id = cid ∧ r.encrypted_client_secret = sec ∧
         r.claims_imports = imports) := by
  constructor
  · simp [PgUpstreamOAuthProviderRepository.upsert, h]
  · intro r hr hrid
    simp [PgUpstreamOAuthProviderRepository.upsert, h] at hr
    rcases hr with ⟨x, hx, hfx⟩
    by_cases hxid : x.upstream_oauth_provider_id = id
    · rw [if_pos hxid] at hfx
      subst hfx
      exact ⟨rfl, rfl, rfl, rfl, rfl, rfl, rfl, rfl⟩
    · rw [if_neg hxid] at hfx
      subst hfx
      exact absurd hrid hxid

theorem upsert_preserves_created_at_witness :
    ((Db.mk [sampleRow] [] []).providers.find?
      (fun r => r.upstream_oauth_provider_id == 1) = some sampleRow) ∧
    (PgUpstreamOAuthProviderRepository.upsert (Db.mk [sampleRow] [] []) 99 1
        "https://other.example" sampleScope .clientSecretPost Option.none
        "cid2" (some "sec") ⟨3⟩).2 =
      .ok
        { id := 1
          issuer := "https://other.example"
          scope := sampleScope
          client_id := "cid2"
          encrypted_client_secret := some "sec"
          token_endpoint_signing_alg := Option.none
          token_endpoint_auth_method := .clientSecretPost
          created_at := sampleRow.created_at
          claims_imports := ⟨3⟩ } :=
  ⟨by decide,
   (upsert_preserves_created_at (Db.mk [sampleRow] [] []) 99 1
     "https://other.example" sampleScope .clientSecretPost Option.none
     "cid2" (some "sec") ⟨3⟩ sampleRow (by decide)).1⟩

/-- C6 (amended): the identifier minted by `add` is derived from the
creation timestamp taken from the clock at millisecond granularity — for
two `add` calls whose clock readings have strictly increasing
millisecond timestamps (within the 48-bit ULID time field), the first
returned identifier is strictly less than the second, whatever the RNG
draws are. -/
theorem add_id_monotone_in_ms
    (db1 db2 : Db) (r1 r2 : Nat) (t1 t2 : DateTime)
    (i1 i2 : String) (s1 s2 : Scope)
    (a1 a2 : OAuthClientAuthenticationMethod)
    (g1 g2 : Option JsonWebSignatureAlg) (c1 c2 : String)
    (e1 e2 : Option String) (m1 m2 : UpstreamOAuthProviderClaimsImports)
    (p1 p2 : UpstreamOAuthProvider)
    (h1 : (PgUpstreamOAuthProviderRepository.add db1 r1 t1 i1 s1 a1 g1 c1
      e1 m1).2 = .ok p1)
    (h2 : (PgUpstreamOAuthProviderRepository.add db2 r2 t2 i2 s2 a2 g2 c2
      e2 m2).2 = .ok p2)
    (hms : DateTime.toMillis t1 < DateTime.toMillis t2)
    (h48 : DateTime.toMillis t2 < 2 ^ 48) :
    p1.id < p2.id := by
  rw [add_ok_id db1 r1 t1 i1 s1 a1 g1 c1 e1 m1 p1 h1,
    add_ok_id db2 r2 t2 i2 s2 a2 g2 c2 e2 m2 p2 h2]
  exact ulid_monotone_in_ms t1 t2 r1 r2 hms h48

theorem add_id_monotone_in_ms_witness :
    (PgUpstreamOAuthProviderRepository.add (Db.mk [] [] []) 5 0 "i"
        sampleScope .none Option.none "c" Option.none ⟨0⟩).2 =
      .ok
        { id := ulidFromDatetime 0 5
          issuer := "i"
          scope := sampleScope
          client_id := "c"
          encrypted_client_secret := Option.none
          token_endpoint_signing_alg := Option.none
          token_endpoint_auth_method := .none
          created_at := 0
          claims_imports := ⟨0⟩ } ∧
    (PgUpstreamOAuthProviderRepository.add (Db.mk [] [] []) 0 2000000 "i"
        sampleScope .none Option.none "c" Option.none ⟨0⟩).2 =
      .ok
        { id := ulidFromDatetime 2000000 0
          issuer := "i"
          scope := sampleScope
          client_id := "c"
          encrypted_client_secret := Option.none
          token_endpoint_signing_alg := Option.none
          token_endpoint_auth_method := .none
          created_at := 2000000
          claims_imports := ⟨0⟩ } ∧
    DateTime.toMillis 0 < DateTime.toMillis 2000000 ∧
    DateTime.toMillis 2000000 < 2 ^ 48 ∧
    ulidFromDatetime 0 5 < ulidFromDatetime 2000000 0 :=
  ⟨by rfl, by rfl, by decide, by decide,
   add_id_monotone_in_ms (Db.mk [] [] []) (Db.mk [] [] []) 5 0 0 2000000
     "i" "i" sampleScope sampleScope .none .none Option.none Option.none
     "c" "c" Option.none Option.none ⟨0⟩ ⟨0⟩ _ _ (by rfl) (by rfl)
     (by decide) (by decide)⟩

/-- A successful `exchange` located a grant by its code and marked
exactly that grant `Exchanged` in the resulting store. -/
theorem exchange_ok_state (st : GrantStore) (now : DateTime)
    (code cid cs : String) (v : Option String) (gid : Ulid)
    (h : (exchange st now code cid cs v).2 = .ok gid) :
    ∃ g, st.grants.find? (fun x => x.code == code) = some g ∧
      (exchange st now code cid cs v).1.grants =
        st.grants.map fun x =>
          if x.id == g.id then { x with status := GrantStatus.exchanged }
          else x := by
  unfold exchange at h ⊢
  cases hfind : st.grants.find? (fun g => g.code == code) with
  | none => rw [hfind] at h; simp at h
  | some g =>
    rw [hfind] at h
    dsimp only at h ⊢
    refine ⟨g, rfl, ?_⟩
    by_cases hexp : g.expires_at ≤ now
    · rw [if_pos hexp] at h; simp at h
    · rw [if_neg hexp] at h ⊢
      cases hstat : g.status with
      | pending => rw [hstat] at h; simp at h
      | cancelled => rw [hstat] at h; simp at h
      | exchanged => rw [hstat] at h; simp at h
      | fulfilled s =>
        rw [hstat] at h
        cases hb : (g.client_id == cid && st.clients.any fun c =>
            c.client_id == cid && c.client_secret == cs) with
        | false => rw [hb] at h; simp at h
        | true =>
          rw [hb] at h
          simp only [Bool.not_true, Bool.false_eq_true, if_false] at h ⊢
          cases hpk : g.pkce_challenge with
          | none => rfl
          | some ch =>
            cases v with
            | none => rw [hpk] at h; simp at h
            | some vv =>
              rw [hpk] at h
              dsimp only at h
              cases hv : (pkceS256 vv == ch) with
              | false => rw [hv] at h; simp at h
              | true =>
                rw [beq_iff_eq] at hv
                simp [hv]

/-- C1: exchange with a grant's code succeeds at most once — after one
successful exchange, any second exchange call with the same code fails
with `InvalidGrant` (the transition is an atomic conditional update, so
the sequential model also covers two serialized concurrent attempts). -/
theorem exchange_single_use (st : GrantStore) (now : DateTime)
    (code cid cs : String) (v : Option String) (gid : Ulid)
    (h : (exchange st now code cid cs v).2 = .ok gid) :
    ∀ (now2 : DateTime) (cid2 cs2 : String) (v2 : Option String),
      (exchange (exchange st now code cid cs v).1 now2 code cid2 cs2
        v2).2 = .error .invalidGrant := by
  obtain ⟨g, hfind, hst'⟩ := exchange_ok_state st now code cid cs v gid h
  have hp : ∀ x : AuthorizationGrant,
      ((if x.id == g.id then { x with status := GrantStatus.exchanged }
        else x).code == code) = (x.code == code) := by
    intro x
    split <;> rfl
  have hfind' : (exchange st now code cid cs v).1.grants.find?
      (fun x => x.code == code) =
      some { g with status := GrantStatus.exchanged } := by
    rw [hst']
    have := find?_map_pres (fun x => x.code == code)
      (fun x =>
        if x.id == g.id then { x with status := GrantStatus.exchanged }
        else x) hp st.grants g hfind
    simpa using this
  intro now2 cid2 cs2 v2
  set st' := (exchange st now code cid cs v).1 with hst'def
  unfold exchange
  rw [hfind']
  dsimp only
  split
  · rfl
  · rfl

theorem exchange_single_use_witness :
    ((exchange
        (GrantStore.mk [⟨"app", "secret"⟩]
          [⟨1, "app", "codeX", Option.none, 100, .fulfilled 7⟩])
        0 "codeX" "app" "secret" Option.none).2 = .ok 1) ∧
    (exchange
        (exchange
          (GrantStore.mk [⟨"app", "secret"⟩]
            [⟨1, "app", "codeX", Option.none, 100, .fulfilled 7⟩])
          0 "codeX" "app" "secret" Option.none).1
        0 "codeX" "app" "secret" Option.none).2 = .error .invalidGrant :=
  ⟨by rfl,
   exchange_single_use
     (GrantStore.mk [⟨"app", "secret"⟩]
       [⟨1, "app", "codeX", Option.none, 100, .fulfilled 7⟩])
     0 "codeX" "app" "secret" Option.none 1 (by rfl)
     0 "app" "secret" Option.none⟩

/-- C4: presenting a refresh token whose generation is strictly older
than the family's current generation fails with `InvalidGrant` and
revokes the entire family, after which every token of every generation
in the family — the current one included — is unusable. -/
theorem refresh_stale_revokes_family (st : TokenStore) (family gen : Nat)
    (f : RefreshFamily)
    (hfind : st.families.find? (fun x => x.id == family) = some f)
    (hrev : f.revoked = false)
    (hstale : gen < f.currentGen) :
    (refresh st family gen).2 = .error .invalidGrant ∧
    ∀ q, (refresh (refresh st family gen).1 family q).2 =
      .error .invalidGrant := by
  have hne : (gen == f.currentGen) = false := by
    simp [Nat.ne_of_lt hstale]
  constructor
  · simp [refresh, hfind, hrev, hne, hstale]
  · intro q
    have hst' : (refresh st family gen).1.families =
        st.families.map fun x =>
          if x.id == family then { x with revoked := true } else x := by
      simp [refresh, hfind, hrev, hne, hstale]
    have hp : ∀ x : RefreshFamily,
        ((if x.id == family then { x with revoked := true }
          else x).id == family) = (x.id == family) := by
      intro x
      split <;> rfl
    have hfid : (f.id == family) = true := by
      simpa using List.find?_some hfind
    have hfind' : (refresh st family gen).1.families.find?
        (fun x => x.id == family) = some { f with revoked := true } := by
      rw [hst']
      have := find?_map_pres (fun x => x.id == family)
        (fun x => if x.id == family then { x with revoked := true } else x)
        hp st.families f hfind
      simpa [hfid] using this
    set st2 := (refresh st family gen).1 with hst2def
    unfold refresh
    rw [hfind']
    rfl

theorem refresh_stale_revokes_family_witness :
    ((refresh (TokenStore.mk [⟨4, 3, false⟩]) 4 1).2 =
      .error .invalidGrant) ∧
    ((refresh (refresh (TokenStore.mk [⟨4, 3, false⟩]) 4 1).1 4 3).2 =
      .error .invalidGrant) ∧
    ((refresh (refresh (TokenStore.mk [⟨4, 3, false⟩]) 4 1).1 4 4).2 =
      .error .invalidGrant) :=
  ⟨(refresh_stale_revokes_family (TokenStore.mk [⟨4, 3, false⟩]) 4 1
      ⟨4, 3, false⟩ (by decide) (by decide) (by decide)).1,
   (refresh_stale_revokes_family (TokenStore.mk [⟨4, 3, false⟩]) 4 1
      ⟨4, 3, false⟩ (by decide) (by decide) (by decide)).2 3,
   (refresh_stale_revokes_family (TokenStore.mk [⟨4, 3, false⟩]) 4 1
      ⟨4, 3, false⟩ (by decide) (by decide) (by decide)).2 4⟩

/-- C7: sign/verify round trip — for every claim set and the active key,
`verify` applied to `sign` of those claims returns claims equal to the
input, and changing any single byte of the payload segment or of the
signature segment makes verification fail. -/
theorem sign_verify_roundtrip_tamper (key : Nat) (claims : Bytes) :
    verify key (sign key claims) = some claims ∧
    (∀ (i b : Nat) (h : i < claims.length), b ≠ claims.get ⟨i, h⟩ →
      verify key ⟨tamper claims i b, (sign key claims).signature⟩ =
        Option.none) ∧
    (∀ (i b : Nat) (h : i < (sign key claims).signature.length),
      b ≠ (sign key claims).signature.get ⟨i, h⟩ →
        verify key ⟨claims, tamper (sign key claims).signature i b⟩ =
          Option.none) := by
  refine ⟨by simp [verify, sign], ?_, ?_⟩
  · intro i b h hb
    have hne : tamper claims i b ≠ claims := set_ne_of_get_ne claims i b h hb
    simp only [verify, sign, macSign, tamper]
    rw [if_neg]
    simp only [beq_iff_eq, List.cons.injEq, true_and]
    intro heq
    exact hne heq.symm
  · intro i b h hb
    have hne : tamper (sign key claims).signature i b ≠
        (sign key claims).signature := set_ne_of_get_ne _ i b h hb
    simp only [verify, sign, macSign, tamper] at hne ⊢
    rw [if_neg]
    simp only [beq_iff_eq]
    exact hne

theorem sign_verify_roundtrip_tamper_witness :
    verify 1 (sign 1 [2, 3]) = some [2, 3] ∧
    verify 1 ⟨tamper [2, 3] 0 9, (sign 1 [2, 3]).signature⟩ =
      Option.none ∧
    verify 1 ⟨[2, 3], tamper (sign 1 [2, 3]).signature 0 9⟩ =
      Option.none :=
  ⟨(sign_verify_roundtrip_tamper 1 [2, 3]).1,
   (sign_verify_roundtrip_tamper 1 [2, 3]).2.1 0 9 (by decide) (by decide),
   (sign_verify_roundtrip_tamper 1 [2, 3]).2.2 0 9 (by decide) (by decide)⟩

end MAS
